import Mathlib

set_option maxHeartbeats 1000000

namespace PodTranscode

/-! Shallow embedding of the podtranscode repository's segment-synthesis and
pipeline code (src/services/transcriber.py, src/services/translator.py,
src/web_app.py).  Text is modelled as `List Char`; Python's float arithmetic
is modelled exactly over `ℚ`.  Each definition mirrors one Python function. -/

/-! ### Python string primitives -/

/-- Whitespace test used by Python's default `str.split` and `str.strip`. -/
def pyIsSpace (c : Char) : Bool :=
  c = ' ' || c = '\t' || c = '\n' || c = '\r' || c = '\x0b' || c = '\x0c'

/-- Python `str.lower`, on the ASCII `A`-`Z` and Latin-1 `À`-`Þ` letter ranges
(enough for the transcriber's marker strings). -/
def lowerChar (c : Char) : Char :=
  if (65 ≤ c.toNat ∧ c.toNat ≤ 90) ∨ (192 ≤ c.toNat ∧ c.toNat ≤ 222 ∧ c.toNat ≠ 215) then
    Char.ofNat (c.toNat + 32)
  else c

/-- Python `str.strip()`: drop whitespace from both ends. -/
def pyStrip (l : List Char) : List Char :=
  ((l.dropWhile pyIsSpace).reverse.dropWhile pyIsSpace).reverse

/-- Accumulator version of Python `str.split()` (split on whitespace runs,
dropping empty pieces); `acc` holds the current word reversed. -/
def wordsAux : List Char → List Char → List (List Char)
  | [], acc => if acc = [] then [] else [acc.reverse]
  | c :: cs, acc =>
    if pyIsSpace c then
      if acc = [] then wordsAux cs [] else acc.reverse :: wordsAux cs []
    else wordsAux cs (c :: acc)

/-- Python `str.split()` with no argument. -/
def pyWords (l : List Char) : List (List Char) := wordsAux l []

/-- Word count: `len(s.split())`. -/
def wc (l : List Char) : ℕ := (pyWords l).length

/-- Python `' '.join(pieces)`. -/
def joinSp : List (List Char) → List Char
  | [] => []
  | [w] => w
  | w :: ws => w ++ ' ' :: joinSp ws

/-- Python `pat in s` substring test. -/
def isSubstr (pat : List Char) : List Char → Bool
  | [] => pat.isPrefixOf []
  | c :: cs => pat.isPrefixOf (c :: cs) || isSubstr pat cs

theorem dropWhile_length_le {α : Type} (p : α → Bool) (l : List α) :
    (l.dropWhile p).length ≤ l.length := by
  induction l with
  | nil => simp [List.dropWhile]
  | cons c cs ih =>
    by_cases h : p c <;> simp [List.dropWhile, h] <;> omega

/-- Scanner for Python `s.replace(pat, rep)` with a non-empty `pat`: replace
occurrences left to right, non-overlapping; `skip` counts characters of a
matched occurrence still to be consumed. -/
def replAux (pat rep : List Char) : List Char → ℕ → List Char
  | [], _ => []
  | c :: cs, 0 =>
    if pat ≠ [] ∧ pat.isPrefixOf (c :: cs) then
      rep ++ replAux pat rep cs (pat.length - 1)
    else
      c :: replAux pat rep cs 0
  | _ :: cs, skip + 1 => replAux pat rep cs skip

/-- Python `s.replace(pat, rep)` for a non-empty `pat`. -/
def replaceAll (pat rep s : List Char) : List Char := replAux pat rep s 0

/-- Test for a sentence break of `re.split(r'(?<=[.!?])\s+', text)`: the
current character is sentence-ending punctuation and the next is whitespace. -/
def sentBreak (c : Char) (cs : List Char) : Bool :=
  (c = '.' || c = '!' || c = '?') &&
    (match cs with
     | d :: _ => pyIsSpace d
     | [] => false)

/-- Accumulator version of `re.split(r'(?<=[.!?])\s+', text)`: cut after
sentence punctuation; `skipping` consumes the separator's whitespace run
(the `\s+`) before the next piece starts. -/
def sentAux : List Char → List Char → Bool → List (List Char)
  | [], acc, _ => [acc.reverse]
  | c :: cs, acc, skipping =>
    if skipping && pyIsSpace c then sentAux cs acc true
    else if sentBreak c cs then (c :: acc).reverse :: sentAux cs [] true
    else sentAux cs (c :: acc) false

/-- The sentence split `re.split(r'(?<=[.!?])\s+', text)`. -/
def sentSplit (l : List Char) : List (List Char) := sentAux l [] false

/-- Accumulator version of Python `text.split(',')` (keeps empty pieces). -/
def commaAux : List Char → List Char → List (List Char)
  | [], acc => [acc.reverse]
  | c :: cs, acc =>
    if c = ',' then acc.reverse :: commaAux cs [] else commaAux cs (c :: acc)

/-- Python `text.split(',')`. -/
def splitOnComma (l : List Char) : List (List Char) := commaAux l []

/-- One-pass machine for `re.sub(r'\[.*?\]', '', text)`: on `[` start buffering
(`some pend`); the non-greedy match closes at the first `]`; `.` does not match
a newline, so a newline aborts the pending match and the bracket is kept; an
unmatched `[` at end of input is kept. -/
def rmBrAux : List Char → Option (List Char) → List Char
  | [], none => []
  | [], some pend => '[' :: pend.reverse
  | c :: cs, none =>
    if c = '[' then rmBrAux cs (some []) else c :: rmBrAux cs none
  | c :: cs, some pend =>
    if c = ']' then rmBrAux cs none
    else if c = '\n' then ('[' :: pend.reverse) ++ '\n' :: rmBrAux cs none
    else rmBrAux cs (some (c :: pend))

/-- Python `re.sub(r'\[.*?\]', '', text)`. -/
def removeBrackets (l : List Char) : List Char := rmBrAux l none

/-- One-pass machine for `re.sub(r'\([^)]*\)', '', text)`: `[^)]*` admits any
character except `)`, so a span runs from `(` to the first `)`; an unmatched
`(` is kept. -/
def rmParAux : List Char → Option (List Char) → List Char
  | [], none => []
  | [], some pend => '(' :: pend.reverse
  | c :: cs, none =>
    if c = '(' then rmParAux cs (some []) else c :: rmParAux cs none
  | c :: cs, some pend =>
    if c = ')' then rmParAux cs none else rmParAux cs (some (c :: pend))

/-- Python `re.sub(r'\([^)]*\)', '', text)`. -/
def removeParens (l : List Char) : List Char := rmParAux l none

/-- Contents of the matches of `\(([^)]*)\)` scanning left to right, used to
model `re.search(r'\([^)]*(?:...)[^)]*\)', text)` as an existence test. -/
def parenSpansAux : List Char → Option (List Char) → List (List Char)
  | [], _ => []
  | c :: cs, none =>
    if c = '(' then parenSpansAux cs (some []) else parenSpansAux cs none
  | c :: cs, some pend =>
    if c = ')' then pend.reverse :: parenSpansAux cs none
    else parenSpansAux cs (some (c :: pend))

/-- All complete `(...)` spans of the text. -/
def parenSpans (l : List Char) : List (List Char) := parenSpansAux l none

/-! ### Transcriber (src/services/transcriber.py) -/

/-- Words per segment lower target (module constant). -/
def MIN_WORDS_PER_SEGMENT : ℕ := 6

/-- Words per segment upper target (module constant). -/
def MAX_WORDS_PER_SEGMENT : ℕ := 15

/-- Accumulator for the hard chunking of `_smart_split`'s fallback
(`for i in range(0, len(words), MAX): chunks.append(' '.join(words[i:i+MAX]))`):
`acc` holds the current block reversed, `cnt` its remaining capacity. -/
def chunkAux : List (List Char) → List (List Char) → ℕ → List (List Char)
  | [], acc, _ => if acc = [] then [] else [joinSp acc.reverse]
  | w :: ws, acc, 0 =>
    joinSp acc.reverse :: chunkAux ws [w] (MAX_WORDS_PER_SEGMENT - 1)
  | w :: ws, acc, cnt + 1 => chunkAux ws (w :: acc) cnt

/-- Hard chunking into fixed blocks of `MAX_WORDS_PER_SEGMENT` words,
re-joined with single spaces. -/
def chunkWords (ws : List (List Char)) : List (List Char) :=
  chunkAux ws [] MAX_WORDS_PER_SEGMENT

/-- One step of `_smart_split`'s comma re-merge loop over the state
`(result, current)`: append the next comma piece to `current` if the
combination stays within `MAX_WORDS_PER_SEGMENT`, else flush `current`. -/
def commaStep (st : List (List Char) × List Char) (part : List Char) :
    List (List Char) × List Char :=
  match st with
  | (res, cur) =>
    if cur = [] then (res, part)
    else
      let combined := cur ++ ',' :: ' ' :: part
      if wc combined ≤ MAX_WORDS_PER_SEGMENT then (res, combined)
      else (res ++ [cur], part)

/-- The comma-path candidate of `_smart_split`: split on commas, strip and
drop empties, then greedily re-merge with `", "` up to `MAX_WORDS_PER_SEGMENT`. -/
def commaMergeSmart (t : List Char) : List (List Char) :=
  let parts := ((splitOnComma t).map pyStrip).filter (fun p => p ≠ [])
  let st := parts.foldl commaStep ([], [])
  if st.2 = [] then st.1 else st.1 ++ [st.2]

/-- `Transcriber._smart_split(text)`: if the text contains a comma and the
comma re-merge yields only pieces within `MAX_WORDS_PER_SEGMENT`, return
those; otherwise hard-chunk the words into fixed blocks. -/
def smartSplit (t : List Char) : List (List Char) :=
  let words := pyWords t
  if ',' ∈ t then
    let result := commaMergeSmart t
    if result.all (fun p => wc p ≤ MAX_WORDS_PER_SEGMENT) then result
    else chunkWords words
  else chunkWords words

/-- One step of `_split_text`'s greedy merge loop over `(merged, current)`:
strip the piece and skip it when empty; start a buffer; extend while the
combination stays within `MAX_WORDS_PER_SEGMENT`; flush a buffer that already
has `MIN_WORDS_PER_SEGMENT` words; otherwise force-merge up to
`MAX_WORDS_PER_SEGMENT + 5`, flushing only beyond that. -/
def mergeStep (st : List (List Char) × List Char) (part : List Char) :
    List (List Char) × List Char :=
  let p := pyStrip part
  if p = [] then st
  else
    match st with
    | (merged, cur) =>
      if cur = [] then (merged, p)
      else
        let combined := cur ++ ' ' :: p
        if wc combined ≤ MAX_WORDS_PER_SEGMENT then (merged, combined)
        else if MIN_WORDS_PER_SEGMENT ≤ wc cur then (merged ++ [cur], p)
        else if wc combined ≤ MAX_WORDS_PER_SEGMENT + 5 then (merged, combined)
        else (merged ++ [cur], p)

/-- The tail fix-up of `_split_text`: a final buffer below
`MIN_WORDS_PER_SEGMENT` is merged backward into the last emitted segment
whenever one exists, with no bound on the combined length. -/
def tailFix (merged : List (List Char)) (cur : List Char) : List (List Char) :=
  if cur = [] then merged
  else if h : wc cur < MIN_WORDS_PER_SEGMENT ∧ merged ≠ [] then
    merged.dropLast ++ [merged.getLast h.2 ++ ' ' :: cur]
  else merged ++ [cur]

/-- `Transcriber._split_text(text)`: sentence split, per-piece length
enforcement through `_smart_split`, greedy merge, tail fix-up, and the
`merged if merged else [text]` fallbacks. -/
def splitText (t : List Char) : List (List Char) :=
  let parts0 := ((sentSplit t).map pyStrip).filter (fun p => p ≠ [])
  let parts := if parts0 = [] then [t] else parts0
  let result :=
    (parts.map (fun p =>
      if wc p ≤ MAX_WORDS_PER_SEGMENT then [p] else smartSplit p)).flatten
  let st := result.foldl mergeStep ([], [])
  let merged := tailFix st.1 st.2
  if merged = [] then [t] else merged

/-- The `non_speech_markers` list of `Transcriber._is_non_speech`. -/
def nonSpeechMarkers : List (List Char) :=
  [ "[music]".data, "[música]".data, "[musica]".data, "[music playing]".data,
    "[applause]".data, "[aplausos]".data, "[clapping]".data,
    "[laughter]".data, "[laughing]".data, "[risadas]".data, "[risos]".data,
    "[silence]".data, "[silêncio]".data, "[silencio]".data,
    "[inaudible]".data, "[inaudível]".data, "[inaudivel]".data,
    "[noise]".data, "[ruído]".data, "[ruido]".data, "[background noise]".data,
    "[crosstalk]".data, "[cross talk]".data,
    "[foreign]".data, "[foreign language]".data, "[speaking foreign language]".data,
    "[blank_audio]".data, "[blank audio]".data, "[no audio]".data,
    "[sounds]".data, "[sound]".data, "[sound effect]".data,
    "[breathing]".data, "[respiração]".data, "[heavy breathing]".data,
    "[coughing]".data, "[tosse]".data, "[cough]".data,
    "[sighing]".data, "[suspiro]".data, "[sigh]".data,
    "[singing]".data, "[cantando]".data,
    "[humming]".data,
    "[phone ringing]".data, "[bell]".data,
    "[door]".data, "[footsteps]".data,
    "♪".data, "♫".data, "🎵".data, "🎶".data,
    "thank you.".data, "thanks for watching".data,
    "please subscribe".data, "like and subscribe".data,
    "see you next time".data, "bye bye".data ]

/-- Python `\w` (word character) on the ASCII and Latin-1 ranges: alphanumeric,
underscore, or a Latin-1 letter. -/
def isWordChar (c : Char) : Bool :=
  c.isAlphanum || c = '_' ||
    (decide (192 ≤ c.toNat) && decide (c.toNat ≤ 255) &&
     decide (c.toNat ≠ 215) && decide (c.toNat ≠ 247))

/-- Characters admitted by `re.match(r'^[♪♫🎵🎶\s.,!?]+$', text)`. -/
def isNotePunct (c : Char) : Bool :=
  c = '♪' || c = '♫' || c = '🎵' || c = '🎶' ||
    c = '.' || c = ',' || c = '!' || c = '?' || pyIsSpace c

/-- The keywords of the parenthesis pattern
`r'\([^)]*(?:music|applause|laughter|singing|humming)[^)]*\)'`. -/
def parenKeywords : List (List Char) :=
  [ "music".data, "applause".data, "laughter".data, "singing".data, "humming".data ]

/-- Python `len(set(words)) == 1`: the list is non-empty and all elements are
equal. -/
def allEqualHead : List (List Char) → Bool
  | [] => false
  | w :: ws => ws.all (fun v => v = w)

/-- `Transcriber._is_non_speech(text)`: empty/whitespace-only text; a known
marker whose removal (plus punctuation stripping) leaves fewer than 5
characters; fewer than 3 characters outside `[...]` spans; only note glyphs,
punctuation and whitespace; at least 4 words all identical; or a parenthesized
non-speech cue with fewer than 5 characters outside `(...)` spans.  Every
branch of the Python function returns `True`, so the checks combine as a
disjunction. -/
def isNonSpeech (t : List Char) : Bool :=
  if t = [] || pyStrip t = [] then true
  else
    let textLower := pyStrip (t.map lowerChar)
    (nonSpeechMarkers.any (fun m =>
      isSubstr m textLower &&
        decide ((pyStrip ((pyStrip (replaceAll m [] textLower)).filter
          (fun c => isWordChar c || pyIsSpace c))).length < 5)))
    || decide ((pyStrip (removeBrackets t)).length < 3)
    || (!t.isEmpty && t.all isNotePunct)
    || (decide (3 ≤ (pyWords textLower).length) && allEqualHead (pyWords textLower) &&
          decide (4 ≤ (pyWords textLower).length))
    || ((parenSpans textLower).any (fun sp => parenKeywords.any (fun k => isSubstr k sp)) &&
        decide ((pyStrip (removeParens t)).length < 5))

/-! ### Timestamp interpolation (Transcriber.transcribe, lines 100-118) -/

/-- Total character count `sum(len(p) for p in parts)`. -/
def totalChars (parts : List (List Char)) : ℕ := (parts.map List.length).sum

/-- The duration the loop assigns to one piece:
`(len(part) / total_chars) * duration if total_chars > 0 else duration / len(parts)`. -/
def pieceDur (total n : ℕ) (duration : ℚ) (len : ℕ) : ℚ :=
  if 0 < total then ((len : ℚ) / (total : ℚ)) * duration else duration / (n : ℚ)

/-- Chained spans from a start time and a list of durations: each span begins
where the previous one ended (`current_time = part_end`). -/
def interpSpans (t : ℚ) : List ℚ → List (ℚ × ℚ)
  | [] => []
  | d :: ds => (t, t + d) :: interpSpans (t + d) ds

/-- The timestamp interpolation of `Transcriber.transcribe` for the pieces of
one utterance `(start, end, text)`. -/
def interpolate (s e : ℚ) (parts : List (List Char)) : List (ℚ × ℚ) :=
  interpSpans s (parts.map (fun p => pieceDur (totalChars parts) parts.length (e - s) p.length))

/-! ### Data model (src/models/segment.py, cache records, job status) -/

/-- The `Segment` dataclass (timestamps as exact rationals). -/
structure Segment where
  id : ℕ
  start : ℚ
  stop : ℚ
  text : String
  translation : Option String := none
deriving Repr, DecidableEq

/-- One cached Episode Record (`cache/<episode_id>.json`). -/
structure CacheRecord where
  segments : List Segment
  audio_path : Option String
  url : String := ""
  title : String := ""
  thumbnail : String := ""
  duration : ℚ := 0
  difficulty : String := "medium"
  language : String := "en"
deriving Repr, DecidableEq

/-- The process-wide `processing_status` dict of src/web_app.py. -/
structure JobStatus where
  progress : ℕ
  message : String
  is_processing : Bool
  segments : List Segment
  audio_path : Option String
  error : Option String
  episode_id : Option String
deriving Repr, DecidableEq

/-! ### Translator (src/services/translator.py) -/

/-- The `PRESERVE_TERMS` list of `Translator`. -/
def PRESERVE_TERMS : List (List Char) :=
  [ "Wi-Fi".data, "WiFi".data, "wi-fi".data, "wifi".data,
    "iPhone".data, "iPad".data, "MacBook".data, "iMac".data, "iOS".data, "macOS".data,
    "Android".data, "Windows".data, "Linux".data,
    "Bluetooth".data, "USB".data, "HDMI".data, "GPS".data,
    "Google".data, "Apple".data, "Microsoft".data, "Amazon".data, "Netflix".data,
    "Spotify".data,
    "Facebook".data, "Instagram".data, "Twitter".data, "TikTok".data, "YouTube".data,
    "WhatsApp".data,
    "AI".data, "API".data, "URL".data, "HTML".data, "CSS".data, "JavaScript".data,
    "Python".data,
    "email".data, "e-mail".data, "online".data, "offline".data, "download".data,
    "upload".data,
    "podcast".data, "Podcast".data,
    "UK".data, "US".data, "USA".data, "EU".data, "UN".data, "NATO".data, "FBI".data,
    "CIA".data, "NASA".data,
    "CEO".data, "CFO".data, "CTO".data, "PR".data, "HR".data, "IT".data, "VIP".data,
    "OK".data, "ok".data, "DJ".data, "TV".data, "CD".data, "DVD".data, "MP3".data ]

/-- The placeholder `__PRESERVE_<i>__` for term index `i`. -/
def placeholder (i : ℕ) : List Char :=
  "__PRESERVE_".data ++ (Nat.repr i).data ++ "__".data

/-- `Translator._preserve_terms(text)`: replace each preserved term present in
the running result with its placeholder, in list order; returns the modified
text and the placeholder/term association. -/
def preserveTerms (text : List Char) : List Char × List (List Char × List Char) :=
  (PRESERVE_TERMS.enum.foldl
    (fun st ti =>
      match ti with
      | (i, term) =>
        if isSubstr term st.1 then
          (replaceAll term (placeholder i) st.1, st.2 ++ [(placeholder i, term)])
        else st)
    (text, []))

/-- `Translator._restore_terms(text, preserved)`. -/
def restoreTerms (text : List Char) (preserved : List (List Char × List Char)) :
    List Char :=
  preserved.foldl (fun r pt => replaceAll pt.1 pt.2 r) text

/-- `Translator.translate_text(text)`, with the translation backend
(`GoogleTranslator.translate`, an excluded collaborator) abstracted as a
function returning either a translation or a raised error message.  An empty
or whitespace-only text returns `""` without calling the backend; a backend
failure is caught and becomes the marked error string. -/
def translateText (backend : List Char → Except String (List Char))
    (text : List Char) : List Char :=
  if pyStrip text = [] then []
  else
    let pr := preserveTerms text
    match backend pr.1 with
    | .ok tr => restoreTerms tr pr.2
    | .error e => "[Erro na traducao: ".data ++ e.data ++ "]".data

/-- `Translator.translate_segments(segments)`: fill `translation` on every
segment with `translate_text(segment.text)`. -/
def translateSegments (backend : List Char → Except String (List Char))
    (segments : List Segment) : List Segment :=
  segments.map (fun s => { s with translation := some ⟨translateText backend s.text.data⟩ })

/-! ### Web app (src/web_app.py) -/

/-- `calculate_difficulty(segments, duration)`: words-per-minute bucket plus
mean word-length bucket; `medium` for an empty list or non-positive duration.
Segments are represented by their `text` fields. -/
def calculateDifficulty (segments : List (List Char)) (duration : ℚ) : String :=
  if segments = [] ∨ duration ≤ 0 then "medium"
  else
    let totalWords : ℕ := (segments.map (fun s => (pyWords s).length)).sum
    let wpm : ℚ := ((totalWords : ℚ) / duration) * 60
    let allWords := pyWords (joinSp segments)
    let avgWordLength : ℚ :=
      if allWords ≠ [] then
        (((allWords.map List.length).sum : ℕ) : ℚ) / (allWords.length : ℚ)
      else 0
    let score : ℕ :=
      (if wpm < 100 then 0 else if wpm < 130 then 1 else if wpm < 160 then 2 else 3)
      + (if avgWordLength < 4.5 then 0 else if avgWordLength < 5.5 then 1 else 2)
    if score ≤ 1 then "easy" else if score ≤ 3 then "medium" else "hard"

/-- Modelled from the spec: the difficulty heuristic stated in §4.5 —
words-per-minute bucketed `<100→0, <130→1, <160→2, else 3` plus mean word
length bucketed `<4.5→0, <5.5→1, else 2`; total `≤1 → easy`, `≤3 → medium`,
else `hard` — written directly from those words for comparison with
`calculateDifficulty`. -/
def difficultySpec (segments : List (List Char)) (duration : ℚ) : String :=
  let ws := pyWords (joinSp segments)
  let wpm : ℚ := ((ws.length : ℚ) / duration) * 60
  let mean : ℚ :=
    if ws ≠ [] then (((ws.map List.length).sum : ℕ) : ℚ) / (ws.length : ℚ) else 0
  let score : ℕ :=
    (if wpm < 100 then 0 else if wpm < 130 then 1 else if wpm < 160 then 2 else 3)
    + (if mean < 4.5 then 0 else if mean < 5.5 then 1 else 2)
  if score ≤ 1 then "easy" else if score ≤ 3 then "medium" else "hard"

/-- The environment of one `process_podcast_async` run for a fixed episode id:
the cached record for that id (if any), the filesystem, and the three
collaborator services.  `download`, `getInfo` and `transcribe` may raise
(modelled by `Except`); `translateSegs` abstracts
`translator.translate_segments`. -/
structure PipelineEnv where
  cache : Option CacheRecord
  fileExists : String → Bool
  download : Except String String
  getInfo : Except String (String × String × ℚ)
  transcribe : String → Except String (List Segment)
  translateSegs : List Segment → List Segment

/-- The observable outcome of one `process_podcast_async` run: the final
`processing_status`, the record written by `save_to_cache` (if any), and
which collaborator phases were invoked. -/
structure AsyncResult where
  status : JobStatus
  saved : Option CacheRecord
  downloadCalled : Bool
  transcribeCalled : Bool
  translateCalled : Bool
deriving Repr

/-- `process_podcast_async(url, episode_id, provided_title, language)`.
The cached branch reuses the cached segments, re-downloading the audio only
when the recorded path is missing on disk; the full branch downloads,
transcribes, translates, computes the difficulty and writes the record.
Every exit passes through the `finally` that clears `is_processing`. -/
def processPodcastAsync (env : PipelineEnv) (st0 : JobStatus)
    (url episodeId providedTitle language : String) : AsyncResult :=
  let st := { st0 with is_processing := true, error := none, segments := [],
                       episode_id := some episodeId }
  match env.cache with
  | some cached =>
    let st := { st with progress := 100, message := "Loaded from cache!",
                        segments := cached.segments, audio_path := cached.audio_path }
    let audioMissing :=
      match cached.audio_path with
      | none => true
      | some p => !env.fileExists p
    if audioMissing then
      match env.download with
      | .ok newPath =>
        { status := { st with progress := 100,
                              message := "Ready! " ++ toString cached.segments.length
                                ++ " sentences (cache)",
                              audio_path := some newPath, is_processing := false },
          saved := some { cached with audio_path := some newPath },
          downloadCalled := true, transcribeCalled := false, translateCalled := false }
      | .error e =>
        { status := { st with progress := 0, message := "Error: " ++ e,
                              error := some e, is_processing := false },
          saved := none,
          downloadCalled := true, transcribeCalled := false, translateCalled := false }
    else
      { status := { st with progress := 100,
                            message := "Ready! " ++ toString cached.segments.length
                              ++ " sentences (cache)",
                            is_processing := false },
        saved := none,
        downloadCalled := false, transcribeCalled := false, translateCalled := false }
  | none =>
    let info :=
      match env.getInfo with
      | .ok i => i
      | .error _ => ("", "", 0)
    let title := if providedTitle = "" then info.1 else providedTitle
    match env.download with
    | .error e =>
      { status := { st with progress := 0, message := "Error: " ++ e,
                            error := some e, is_processing := false },
        saved := none,
        downloadCalled := true, transcribeCalled := false, translateCalled := false }
    | .ok audioPath =>
      let st := { st with audio_path := some audioPath }
      match env.transcribe audioPath with
      | .error e =>
        { status := { st with progress := 0, message := "Error: " ++ e,
                              error := some e, is_processing := false },
          saved := none,
          downloadCalled := true, transcribeCalled := true, translateCalled := false }
      | .ok rawSegments =>
        let segments := env.translateSegs rawSegments
        let difficulty := calculateDifficulty (segments.map (fun s => s.text.data)) info.2.2
        { status := { st with progress := 100,
                              message := "Ready! " ++ toString segments.length
                                ++ " sentences found.",
                              segments := segments, is_processing := false },
          saved := some { segments := segments, audio_path := some audioPath,
                          url := url, title := title, thumbnail := info.2.1,
                          duration := info.2.2, difficulty := difficulty,
                          language := language },
          downloadCalled := true, transcribeCalled := true, translateCalled := true }

/-- A request to the `/api/process` route. -/
structure ProcessReq where
  url : String
  title : String := ""
  language : String := "en"

/-- The synchronous response of the `/api/process` route. -/
inductive ProcessResp where
  | err : String → ProcessResp
  | cachedResp : (episodeId : String) → (segmentCount : ℕ) → (language : String) → ProcessResp
  | started : (episodeId : String) → (redownloading : Bool) → ProcessResp
deriving Repr, DecidableEq

/-- The `/api/process` route handler `process()`: reject when a job is already
running; validate the URL; serve a cache hit synchronously when the audio file
exists; otherwise start the background job (the returned `Bool` records
whether a background thread was started).  `hashUrl` abstracts
`get_episode_id` (MD5 of the URL). -/
def processRoute (env : PipelineEnv) (hashUrl : String → String)
    (st : JobStatus) (req : ProcessReq) : ProcessResp × JobStatus × Bool :=
  if st.is_processing then
    (.err "Ja existe um processamento em andamento", st, false)
  else
    let url : String := ⟨pyStrip req.url.data⟩
    if url = "" then (.err "URL nao fornecida", st, false)
    else
      let episodeId := hashUrl url
      match env.cache with
      | some cached =>
        match cached.audio_path with
        | some p =>
          if env.fileExists p then
            (.cachedResp episodeId cached.segments.length cached.language,
             { st with segments := cached.segments, audio_path := some p,
                       episode_id := some episodeId },
             false)
          else (.started episodeId true, st, true)
        | none => (.started episodeId true, st, true)
      | none => (.started episodeId false, st, true)

/-- The cache directory constant. -/
def CACHE_DIR : List Char := "cache".data

/-- The shared default flashcards file `CACHE_DIR / 'flashcards.json'`. -/
def FLASHCARDS_FILE : List Char := "cache/flashcards.json".data

/-- Python `str.isalnum` on the ASCII range (the sanitizer's filter). -/
def pyIsAlnum (c : Char) : Bool := c.isAlphanum

/-- `get_user_flashcards_file(user_id)`: a missing, empty or literal
`'undefined'` user id maps to the shared file; otherwise the id is reduced to
its alphanumeric/underscore characters and used in
`CACHE_DIR / f'flashcards_{safe_user_id}.json'`. -/
def getUserFlashcardsFile (userId : Option String) : List Char :=
  match userId with
  | none => FLASHCARDS_FILE
  | some uid =>
    if uid = "" ∨ uid = "undefined" then FLASHCARDS_FILE
    else
      CACHE_DIR ++ "/flashcards_".data
        ++ uid.data.filter (fun c => pyIsAlnum c || c = '_')
        ++ ".json".data

/-- Modelled from the spec: the conjunction-based subdivision of claim C3 /
spec §4.2 step 2(b) — "split before coordinating/subordinating conjunctions
(and, but, or, so, because, when, if, that, which, where, while, although,
though, since, before, after, until, unless), keeping the conjunction with its
following clause" — written from those words for comparison with
`smartSplit` (the source has no such step). -/
def conjunctionWords : List (List Char) :=
  [ "and".data, "but".data, "or".data, "so".data, "because".data, "when".data,
    "if".data, "that".data, "which".data, "where".data, "while".data,
    "although".data, "though".data, "since".data, "before".data, "after".data,
    "until".data, "unless".data ]

/-- Modelled from the spec: split a word list before each conjunction, keeping
the conjunction with its following clause; pieces are re-joined with spaces. -/
def conjSplitSpec (t : List Char) : List (List Char) :=
  let st := (pyWords t).foldl
    (fun (st : List (List (List Char)) × List (List Char)) w =>
      if conjunctionWords.contains w ∧ st.2 ≠ [] then (st.1 ++ [st.2], [w])
      else (st.1, st.2 ++ [w]))
    ([], [])
  ((if st.2 = [] then st.1 else st.1 ++ [st.2]).map joinSp)

/-! ### Lemmas about the string primitives -/

theorem char_toNat_ofNat (n : ℕ) (h : n < 55296) : (Char.ofNat n).toNat = n := by
  have hv : Nat.isValidChar n := Or.inl h
  simp [Char.ofNat, hv, Char.ofNatAux, Char.toNat, UInt32.toNat]

theorem char_eq_iff_toNat {a b : Char} : a = b ↔ a.toNat = b.toNat := by
  constructor
  · intro h; rw [h]
  · intro h; exact Char.ext (UInt32.ext h)

theorem pyIsSpace_false_of_ge (d : Char) (hd : 65 ≤ d.toNat) : pyIsSpace d = false := by
  cases hb : pyIsSpace d
  · rfl
  · exfalso
    simp only [pyIsSpace, Bool.or_eq_true, decide_eq_true_eq] at hb
    rcases hb with ((((h | h) | h) | h) | h) | h <;>
      (rw [char_eq_iff_toNat] at h; revert hd; rw [h]; decide)

theorem pyIsSpace_lowerChar (c : Char) : pyIsSpace (lowerChar c) = pyIsSpace c := by
  unfold lowerChar
  split
  · rename_i h
    have hc : 65 ≤ c.toNat := by rcases h with ⟨h1, _⟩ | ⟨h1, _⟩ <;> omega
    have hn : (Char.ofNat (c.toNat + 32)).toNat = c.toNat + 32 := by
      apply char_toNat_ofNat
      rcases h with ⟨_, h2⟩ | ⟨_, h2, _⟩ <;> omega
    rw [pyIsSpace_false_of_ge _ (by omega), pyIsSpace_false_of_ge _ hc]
  · rfl

theorem wordsAux_ne_nil (l acc : List Char) (h : acc ≠ []) : wordsAux l acc ≠ [] := by
  induction l generalizing acc with
  | nil => simp [wordsAux, h]
  | cons c cs ih =>
    simp only [wordsAux]
    split
    · simp [h]
    · exact ih (c :: acc) (by simp)

theorem pyWords_eq_nil_iff (l : List Char) : pyWords l = [] ↔ l.all pyIsSpace := by
  induction l with
  | nil => simp [pyWords, wordsAux]
  | cons c cs ih =>
    by_cases hc : pyIsSpace c
    · simpa [pyWords, wordsAux, hc] using ih
    · simp only [pyWords, wordsAux, hc]
      simp only [if_false, Bool.false_eq_true]
      constructor
      · intro h; exact absurd h (wordsAux_ne_nil cs [c] (by simp))
      · intro h; simp [List.all_cons, hc] at h

theorem wordsAux_all_space (sp acc : List Char) (h : ∀ c ∈ sp, pyIsSpace c = true) :
    wordsAux sp acc = if acc = [] then [] else [acc.reverse] := by
  induction sp generalizing acc with
  | nil => rfl
  | cons c cs ih =>
    have hc : pyIsSpace c = true := h c (by simp)
    have hrest : ∀ d ∈ cs, pyIsSpace d = true := fun d hd => h d (by simp [hd])
    simp only [wordsAux, hc, if_true]
    by_cases ha : acc = []
    · simp [ha, ih [] hrest]
    · simp [ha, ih [] hrest]

theorem wordsAux_append_spaces (l sp acc : List Char)
    (h : ∀ c ∈ sp, pyIsSpace c = true) :
    wordsAux (l ++ sp) acc = wordsAux l acc := by
  induction l generalizing acc with
  | nil =>
    simp only [List.nil_append]
    rw [wordsAux_all_space sp acc h]
    rfl
  | cons c cs ih =>
    simp only [List.cons_append, wordsAux]
    by_cases hc : pyIsSpace c
    · simp only [hc, if_true]
      by_cases ha : acc = [] <;> simp [ha, ih]
    · simp [hc, ih]

theorem dropWhile_words (l : List Char) :
    pyWords (l.dropWhile pyIsSpace) = pyWords l := by
  induction l with
  | nil => rfl
  | cons c cs ih =>
    by_cases hc : pyIsSpace c
    · simpa [List.dropWhile, hc, pyWords, wordsAux] using ih
    · simp [List.dropWhile, hc]

theorem mem_takeWhile_space {p : Char → Bool} {l : List Char} :
    ∀ c ∈ l.takeWhile p, p c = true := by
  induction l with
  | nil => simp [List.takeWhile]
  | cons a as ih =>
    by_cases ha : p a
    · simp only [List.takeWhile, ha]
      intro c hc
      rcases List.mem_cons.mp hc with h | h
      · rwa [h]
      · exact ih c h
    · simp [List.takeWhile, ha]

theorem pyWords_strip (l : List Char) : pyWords (pyStrip l) = pyWords l := by
  unfold pyStrip
  set m := l.dropWhile pyIsSpace with hm
  have h1 : pyWords m = pyWords l := dropWhile_words l
  have hsplit : m = (m.reverse.dropWhile pyIsSpace).reverse
      ++ (m.reverse.takeWhile pyIsSpace).reverse := by
    conv_lhs => rw [← List.reverse_reverse m]
    rw [← List.reverse_append, List.takeWhile_append_dropWhile]
  have hsp : ∀ c ∈ (m.reverse.takeWhile pyIsSpace).reverse, pyIsSpace c = true := by
    intro c hc
    exact mem_takeWhile_space c (List.mem_reverse.mp hc)
  calc pyWords (m.reverse.dropWhile pyIsSpace).reverse
      = pyWords ((m.reverse.dropWhile pyIsSpace).reverse
          ++ (m.reverse.takeWhile pyIsSpace).reverse) := by
        unfold pyWords
        rw [wordsAux_append_spaces _ _ _ hsp]
    _ = pyWords m := by rw [← hsplit]
    _ = pyWords l := h1

theorem pyStrip_eq_nil_iff (l : List Char) : pyStrip l = [] ↔ l.all pyIsSpace := by
  unfold pyStrip
  rw [List.reverse_eq_nil_iff, List.dropWhile_eq_nil_iff]
  constructor
  · intro h
    rw [List.all_eq_true]
    intro c hc
    by_cases hcs : pyIsSpace c
    · exact hcs
    · exfalso
      have hmem : c ∈ l.dropWhile pyIsSpace ∨ c ∈ l.takeWhile pyIsSpace := by
        rcases List.mem_append.mp
          (by rw [List.takeWhile_append_dropWhile]; exact hc :
            c ∈ l.takeWhile pyIsSpace ++ l.dropWhile pyIsSpace) with h' | h'
        · exact Or.inr h'
        · exact Or.inl h'
      rcases hmem with h' | h'
      · exact hcs (h c (List.mem_reverse.mpr h'))
      · exact hcs (mem_takeWhile_space c h')
  · intro h c hc
    rw [List.all_eq_true] at h
    exact h c ((List.dropWhile_sublist pyIsSpace).subset (List.mem_reverse.mp hc))

theorem dropWhile_cons_head {α : Type} {p : α → Bool} (m : List α) (c : α) (r : List α)
    (h : m.dropWhile p = c :: r) : p c = false := by
  induction m with
  | nil => simp [List.dropWhile] at h
  | cons a as ih =>
    by_cases ha : p a
    · exact ih (by simpa [List.dropWhile, ha] using h)
    · simp only [List.dropWhile, ha] at h
      injection h with h1 h2
      subst h1
      cases hpa : p a
      · rfl
      · exact absurd hpa ha

theorem pyStrip_all_space (l : List Char) (h : (pyStrip l).all pyIsSpace) :
    pyStrip l = [] := by
  unfold pyStrip at *
  rw [List.reverse_eq_nil_iff]
  cases hq : (l.dropWhile pyIsSpace).reverse.dropWhile pyIsSpace with
  | nil => rfl
  | cons c r =>
    exfalso
    have hc : pyIsSpace c = false := dropWhile_cons_head _ c r hq
    rw [hq] at h
    rw [List.all_eq_true] at h
    have := h c (by simp)
    rw [hc] at this
    simp at this

theorem wordsAux_map_lower (l acc : List Char) :
    wordsAux (l.map lowerChar) (acc.map lowerChar)
      = (wordsAux l acc).map (List.map lowerChar) := by
  induction l generalizing acc with
  | nil =>
    by_cases h : acc = []
    · simp [wordsAux, h]
    · simp [wordsAux, h, List.map_eq_nil_iff, List.map_reverse]
  | cons c cs ih =>
    simp only [List.map_cons, wordsAux, pyIsSpace_lowerChar c]
    by_cases hc : pyIsSpace c
    · simp only [hc, if_true]
      have h0 := ih []
      simp only [List.map_nil] at h0
      by_cases ha : acc = []
      · simpa [ha] using h0
      · simp [ha, List.map_eq_nil_iff, h0, List.map_reverse]
    · simp only [hc, if_false]
      simpa [List.map_cons] using ih (c :: acc)

theorem pyWords_map_lower (l : List Char) :
    pyWords (l.map lowerChar) = (pyWords l).map (List.map lowerChar) :=
  wordsAux_map_lower l []

theorem wordsAux_append_sep (a b acc : List Char) :
    wordsAux (a ++ ' ' :: b) acc = wordsAux a acc ++ wordsAux b [] := by
  induction a generalizing acc with
  | nil =>
    simp only [List.nil_append, wordsAux]
    have : pyIsSpace ' ' = true := by decide
    rw [this]
    by_cases h : acc = [] <;> simp [h]
  | cons c cs ih =>
    simp only [List.cons_append, wordsAux]
    by_cases hc : pyIsSpace c
    · simp only [hc, if_true]
      by_cases ha : acc = [] <;> simp [ha, ih]
    · simp [hc, ih]

theorem pyWords_append_space (a b : List Char) :
    pyWords (a ++ ' ' :: b) = pyWords a ++ pyWords b :=
  wordsAux_append_sep a b []

theorem pyWords_joinSp (ls : List (List Char)) :
    pyWords (joinSp ls) = (ls.map pyWords).flatten := by
  induction ls with
  | nil => rfl
  | cons w ws ih =>
    cases ws with
    | nil => simp [joinSp]
    | cons w2 ws2 =>
      show pyWords (w ++ ' ' :: joinSp (w2 :: ws2)) = _
      rw [pyWords_append_space, ih]
      simp

theorem wordsAux_sound (l acc : List Char) (hacc : ∀ c ∈ acc, pyIsSpace c = false) :
    ∀ w ∈ wordsAux l acc, w ≠ [] ∧ ∀ c ∈ w, pyIsSpace c = false := by
  induction l generalizing acc with
  | nil =>
    intro w hw
    by_cases h : acc = []
    · simp [wordsAux, h] at hw
    · simp only [wordsAux] at hw
      rw [if_neg h] at hw
      have hw' : w = acc.reverse := by simpa using hw
      subst hw'
      exact ⟨by simpa using h, fun c hc => hacc c (List.mem_reverse.mp hc)⟩
  | cons c cs ih =>
    intro w hw
    simp only [wordsAux] at hw
    by_cases hc : pyIsSpace c
    · rw [if_pos hc] at hw
      by_cases ha : acc = []
      · rw [if_pos ha] at hw
        exact ih [] (by simp) w hw
      · rw [if_neg ha] at hw
        rcases List.mem_cons.mp hw with h | h
        · subst h
          exact ⟨by simpa using ha, fun d hd => hacc d (List.mem_reverse.mp hd)⟩
        · exact ih [] (by simp) w h
    · rw [if_neg hc] at hw
      refine ih (c :: acc) ?_ w hw
      intro d hd
      rcases List.mem_cons.mp hd with h | h
      · rw [h]
        cases hpc : pyIsSpace c
        · rfl
        · exact absurd hpc hc
      · exact hacc d h

theorem pyWords_sound (l : List Char) :
    ∀ w ∈ pyWords l, w ≠ [] ∧ ∀ c ∈ w, pyIsSpace c = false :=
  wordsAux_sound l [] (by simp)

theorem wordsAux_single (w acc : List Char) (hw : w ≠ [])
    (h : ∀ c ∈ w, pyIsSpace c = false) :
    wordsAux w acc = [acc.reverse ++ w] := by
  induction w generalizing acc with
  | nil => exact absurd rfl hw
  | cons c cs ih =>
    have hc : pyIsSpace c = false := h c (by simp)
    simp only [wordsAux, hc, Bool.false_eq_true, if_false]
    by_cases hcs : cs = []
    · subst hcs
      simp [wordsAux]
    · rw [ih (c :: acc) hcs (fun d hd => h d (by simp [hd]))]
      simp

theorem pyWords_of_word (w : List Char) (hw : w ≠ [])
    (h : ∀ c ∈ w, pyIsSpace c = false) : pyWords w = [w] := by
  unfold pyWords
  rw [wordsAux_single w [] hw h]
  simp

/-! ### Lemmas about the timestamp interpolation -/

theorem interpSpans_length (t : ℚ) (ds : List ℚ) :
    (interpSpans t ds).length = ds.length := by
  induction ds generalizing t with
  | nil => rfl
  | cons d ds ih => simp [interpSpans, ih]

theorem interpSpans_chain (t : ℚ) (ds : List ℚ) (i : ℕ) (h : i + 1 < ds.length) :
    ((interpSpans t ds).getD i (0, 0)).2 = ((interpSpans t ds).getD (i + 1) (0, 0)).1 := by
  induction ds generalizing t i with
  | nil => simp at h
  | cons d ds ih =>
    cases i with
    | zero =>
      cases ds with
      | nil => simp at h
      | cons e es => simp [interpSpans]
    | succ j =>
      have hj : j + 1 < ds.length := by simpa using h
      simpa [interpSpans] using ih (t + d) j hj

theorem interpSpans_dur (t : ℚ) (ds : List ℚ) (i : ℕ) (h : i < ds.length) :
    ((interpSpans t ds).getD i (0, 0)).2 - ((interpSpans t ds).getD i (0, 0)).1
      = ds.getD i 0 := by
  induction ds generalizing t i with
  | nil => simp at h
  | cons d ds ih =>
    cases i with
    | zero => simp [interpSpans]
    | succ j =>
      have hj : j < ds.length := by simpa using h
      simpa [interpSpans] using ih (t + d) j hj

theorem interpSpans_getLastD (t : ℚ) (ds : List ℚ) (h : ds ≠ []) (dflt : ℚ × ℚ) :
    ((interpSpans t ds).getLastD dflt).2 = t + ds.sum := by
  induction ds generalizing t dflt with
  | nil => exact absurd rfl h
  | cons d ds ih =>
    cases ds with
    | nil => simp [interpSpans]
    | cons e es =>
      show ((List.getLastD ((t, t + d) :: interpSpans (t + d) (e :: es)) dflt)).2 = _
      rw [List.getLastD_cons]
      rw [ih (t + d) (by simp) (t, t + d)]
      simp [List.sum_cons]
      ring

theorem sum_div_mul (T D : ℚ) (xs : List ℚ) :
    (xs.map (fun x => (x / T) * D)).sum = (xs.sum / T) * D := by
  induction xs with
  | nil => simp
  | cons x xs ih =>
    simp only [List.map_cons, List.sum_cons, ih]
    ring

theorem interp_durs_sum (s e : ℚ) (parts : List (List Char)) (hne : parts ≠ []) :
    (parts.map (fun p =>
      pieceDur (totalChars parts) parts.length (e - s) p.length)).sum = e - s := by
  by_cases ht : 0 < totalChars parts
  · simp only [pieceDur, if_pos ht]
    have h1 : (parts.map (fun p =>
        ((p.length : ℚ) / (totalChars parts : ℚ)) * (e - s)))
        = (parts.map (fun p => ((p.length : ℕ) : ℚ))).map
            (fun x => (x / (totalChars parts : ℚ)) * (e - s)) := by
      simp [List.map_map]
    rw [h1, sum_div_mul]
    have h2 : (parts.map (fun p => ((p.length : ℕ) : ℚ))).sum
        = ((totalChars parts : ℕ) : ℚ) := by
      unfold totalChars
      rw [Nat.cast_list_sum, List.map_map]
      rfl
    rw [h2]
    have h3 : ((totalChars parts : ℕ) : ℚ) ≠ 0 := by
      exact_mod_cast ht.ne'
    field_simp
  · simp only [pieceDur, if_neg ht]
    have hmap : parts.map (fun _ => (e - s) / (parts.length : ℚ))
        = List.replicate parts.length ((e - s) / (parts.length : ℚ)) := by
      simp [List.map_const']
    rw [hmap, List.sum_replicate, nsmul_eq_mul]
    have hn : ((parts.length : ℕ) : ℚ) ≠ 0 := by
      have : parts.length ≠ 0 := by simpa [List.length_eq_zero] using hne
      exact_mod_cast this
    field_simp

/-! ### Claim theorems -/

/-- C1: for every utterance `(start, end, text)` with `start < end` and every
ordered sequence of non-empty split pieces, the timestamp interpolation in
`Transcriber.transcribe` assigns each piece `i` a span `[start_i, end_i)` such
that `start_0 = start`, `end_i = start_{i+1}` for consecutive pairs,
`end_last = end`, and each piece's duration equals
`(len(piece) / total_chars) * (end - start)`; when the total character length
is zero each piece instead receives the equal share
`(end - start) / number_of_pieces`. -/
theorem C1_interpolation_correct (s e : ℚ) (parts : List (List Char))
    (hne : parts ≠ []) (hlt : s < e) :
    (interpolate s e parts).length = parts.length ∧
    ((interpolate s e parts).getD 0 (0, 0)).1 = s ∧
    (∀ i, i + 1 < parts.length →
      ((interpolate s e parts).getD i (0, 0)).2
        = ((interpolate s e parts).getD (i + 1) (0, 0)).1) ∧
    ((interpolate s e parts).getLastD (0, 0)).2 = e ∧
    (∀ i, i < parts.length →
      ((interpolate s e parts).getD i (0, 0)).2 - ((interpolate s e parts).getD i (0, 0)).1
        = if 0 < totalChars parts then
            (((parts.getD i []).length : ℚ) / (totalChars parts : ℚ)) * (e - s)
          else (e - s) / (parts.length : ℚ)) := by
  set ds := parts.map (fun p =>
    pieceDur (totalChars parts) parts.length (e - s) p.length) with hds
  have hlen : ds.length = parts.length := by simp [hds]
  refine ⟨?_, ?_, ?_, ?_, ?_⟩
  · rw [interpolate, interpSpans_length, hlen]
  · rcases parts with _ | ⟨p, ps⟩
    · exact absurd rfl hne
    · rfl
  · intro i hi
    exact interpSpans_chain s ds i (by omega)
  · have hdne : ds ≠ [] := by
      simp [hds, List.map_eq_nil_iff]
      exact hne
    rw [interpolate, interpSpans_getLastD s ds hdne, hds, interp_durs_sum s e parts hne]
    ring
  · intro i hi
    have hi' : i < ds.length := by omega
    rw [interpolate, interpSpans_dur s ds i hi']
    have h1 : ds.getD i 0 = pieceDur (totalChars parts) parts.length (e - s)
        (parts.getD i []).length := by
      rw [hds, List.getD_eq_getElem _ _ (by simpa using hi),
          List.getElem_map, List.getD_eq_getElem _ _ hi]
    rw [h1, pieceDur]

/-- C1 witness: the interpolation of `(0, 10)` over the pieces `"ab"`, `"c"`. -/
theorem C1_witness :
    (["ab".data, "c".data] : List (List Char)) ≠ [] ∧
    (interpolate 0 10 ["ab".data, "c".data]).length = 2 ∧
    ((interpolate 0 10 ["ab".data, "c".data]).getD 0 (0, 0)).1 = 0 ∧
    ((interpolate 0 10 ["ab".data, "c".data]).getD 0 (0, 0)).2
      = ((interpolate 0 10 ["ab".data, "c".data]).getD 1 (0, 0)).1 ∧
    ((interpolate 0 10 ["ab".data, "c".data]).getLastD (0, 0)).2 = 10 := by
  have h := C1_interpolation_correct 0 10 ["ab".data, "c".data]
    (by simp) (by norm_num)
  exact ⟨by simp, by rw [h.1]; rfl, h.2.1, h.2.2.1 0 (by norm_num), h.2.2.2.1⟩

/-- C6: a start request received while `is_processing` is true is rejected
synchronously with the job-already-running error, no background thread is
started, and the shared job status is returned unchanged. -/
theorem C6_concurrent_rejected (env : PipelineEnv) (hashUrl : String → String)
    (st : JobStatus) (req : ProcessReq) (h : st.is_processing = true) :
    processRoute env hashUrl st req
      = (.err "Ja existe um processamento em andamento", st, false) := by
  simp [processRoute, h]

/-- C6 witness: a concrete busy status rejects a concrete request untouched. -/
theorem C6_witness :
    processRoute
      ⟨none, fun _ => false, .error "", .error "", fun _ => .error "", id⟩
      (fun _ => "eid")
      ⟨37, "working", true, [], none, none, some "other"⟩
      ⟨"http://x", "", "en"⟩
      = (.err "Ja existe um processamento em andamento",
         ⟨37, "working", true, [], none, none, some "other"⟩, false) :=
  C6_concurrent_rejected _ _ _ _ rfl

/-- C10: `get_user_flashcards_file` maps a missing, empty or literal
`'undefined'` user id to the shared default file, and otherwise returns
`CACHE_DIR/'flashcards_<s>.json'` where `<s>` keeps exactly the alphanumeric
and underscore characters of the user id, so the inserted part contains no
`'/'` and no `'.'` (no directory traversal). -/
theorem C10_flashcards_path (userId : Option String) :
    ((userId = none ∨ userId = some "" ∨ userId = some "undefined") →
      getUserFlashcardsFile userId = FLASHCARDS_FILE) ∧
    (∀ s : String, userId = some s → s ≠ "" → s ≠ "undefined" →
      getUserFlashcardsFile userId
        = CACHE_DIR ++ "/flashcards_".data
            ++ s.data.filter (fun c => pyIsAlnum c || c = '_') ++ ".json".data ∧
      ∀ c ∈ s.data.filter (fun c => pyIsAlnum c || c = '_'), c ≠ '/' ∧ c ≠ '.') := by
  constructor
  · rintro (rfl | rfl | rfl) <;> simp [getUserFlashcardsFile]
  · rintro s rfl h1 h2
    refine ⟨by simp [getUserFlashcardsFile, h1, h2], ?_⟩
    intro c hc
    have hmem := (List.mem_filter.mp hc).2
    constructor
    · rintro rfl
      exact absurd hmem (by decide)
    · rintro rfl
      exact absurd hmem (by decide)

/-- C10 witness: the traversal attempt `"../etc"` is reduced to `"etc"` inside
the cache directory. -/
theorem C10_witness :
    getUserFlashcardsFile (some "../etc") = "cache/flashcards_etc.json".data := by
  have h := (C10_flashcards_path (some "../etc")).2 "../etc" rfl
    (by decide) (by decide)
  rw [h.1]
  decide

/-- C8: `Translator.translate_text` is total (the embedding is a function);
when the translation backend fails, the result is the marked error string
`'[Erro na traducao: <e>]'` instead of a propagated exception, and
`translate_segments` fills a translation for every segment of any list,
whatever the backend does. -/
theorem C8_translate_graceful
    (backend : List Char → Except String (List Char)) (text : List Char)
    (err : String) (hne : pyStrip text ≠ [])
    (hb : backend (preserveTerms text).1 = .error err) :
    translateText backend text
      = "[Erro na traducao: ".data ++ err.data ++ "]".data ∧
    ∀ segments : List Segment,
      (translateSegments backend segments).length = segments.length ∧
      ∀ sgm ∈ translateSegments backend segments, sgm.translation.isSome := by
  refine ⟨by simp [translateText, hne, hb], ?_⟩
  intro segs
  refine ⟨by simp [translateSegments], ?_⟩
  intro sgm hs
  simp only [translateSegments, List.mem_map] at hs
  obtain ⟨s0, _, rfl⟩ := hs
  simp

/-- C8 witness: a backend that always raises yields the marked error string,
and every segment still receives a translation. -/
theorem C8_witness :
    translateText (fun _ => .error "boom") "hi".data
      = "[Erro na traducao: boom]".data ∧
    (translateSegments (fun _ => .error "boom")
      [{ id := 0, start := 0, stop := 1, text := "hi" }]).length = 1 := by
  have h := C8_translate_graceful (fun _ => .error "boom") "hi".data "boom"
    (by decide) rfl
  exact ⟨h.1.trans (by decide),
    (h.2 [{ id := 0, start := 0, stop := 1, text := "hi" }]).1⟩

/-- C5: for a start request whose URL has a cached record but whose referenced
audio file no longer exists on disk, the background job performs only the
download phase: it reuses the cached segments unchanged, re-downloads the
audio, writes the updated audio path back into the cached record, and
finishes successfully (no error, `is_processing` cleared) without invoking
transcription or translation. -/
theorem C5_cached_redownload (env : PipelineEnv) (st : JobStatus)
    (url episodeId title language : String) (r : CacheRecord) (p newPath : String)
    (hc : env.cache = some r) (hp : r.audio_path = some p)
    (hmiss : env.fileExists p = false) (hd : env.download = .ok newPath) :
    (processPodcastAsync env st url episodeId title language).downloadCalled = true ∧
    (processPodcastAsync env st url episodeId title language).transcribeCalled = false ∧
    (processPodcastAsync env st url episodeId title language).translateCalled = false ∧
    (processPodcastAsync env st url episodeId title language).status.segments
      = r.segments ∧
    (processPodcastAsync env st url episodeId title language).status.audio_path
      = some newPath ∧
    (processPodcastAsync env st url episodeId title language).saved
      = some { r with audio_path := some newPath } ∧
    (processPodcastAsync env st url episodeId title language).status.error = none ∧
    (processPodcastAsync env st url episodeId title language).status.is_processing
      = false := by
  simp [processPodcastAsync, hc, hp, hmiss, hd]

/-- C5 witness: a concrete cached record whose audio file is gone. -/
theorem C5_witness :
    (processPodcastAsync
      ⟨some ⟨[⟨0, 0, 1, "hey", some "ei"⟩], some "old.mp3", "u", "t", "", 9, "easy", "en"⟩,
       fun _ => false, .ok "new.mp3", .error "", fun _ => .error "t", id⟩
      ⟨0, "Ready", false, [], none, none, none⟩
      "u" "eid" "t" "en").transcribeCalled = false ∧
    (processPodcastAsync
      ⟨some ⟨[⟨0, 0, 1, "hey", some "ei"⟩], some "old.mp3", "u", "t", "", 9, "easy", "en"⟩,
       fun _ => false, .ok "new.mp3", .error "", fun _ => .error "t", id⟩
      ⟨0, "Ready", false, [], none, none, none⟩
      "u" "eid" "t" "en").status.segments = [⟨0, 0, 1, "hey", some "ei"⟩] ∧
    (processPodcastAsync
      ⟨some ⟨[⟨0, 0, 1, "hey", some "ei"⟩], some "old.mp3", "u", "t", "", 9, "easy", "en"⟩,
       fun _ => false, .ok "new.mp3", .error "", fun _ => .error "t", id⟩
      ⟨0, "Ready", false, [], none, none, none⟩
      "u" "eid" "t" "en").saved
      = some ⟨[⟨0, 0, 1, "hey", some "ei"⟩], some "new.mp3", "u", "t", "", 9, "easy", "en"⟩ := by
  have h := C5_cached_redownload
    ⟨some ⟨[⟨0, 0, 1, "hey", some "ei"⟩], some "old.mp3", "u", "t", "", 9, "easy", "en"⟩,
     fun _ => false, .ok "new.mp3", .error "", fun _ => .error "t", id⟩
    ⟨0, "Ready", false, [], none, none, none⟩
    "u" "eid" "t" "en"
    ⟨[⟨0, 0, 1, "hey", some "ei"⟩], some "old.mp3", "u", "t", "", 9, "easy", "en"⟩
    "old.mp3" "new.mp3" rfl rfl rfl rfl
  exact ⟨h.2.1, h.2.2.2.1, h.2.2.2.2.2.1⟩

theorem flatten_replicate_singleton {α : Type} (n : ℕ) (a : α) :
    (List.replicate n [a]).flatten = List.replicate n a := by
  induction n with
  | zero => rfl
  | succ k ih => simp [List.replicate, ih]

theorem total_words_eq_join (segments : List (List Char)) :
    (segments.map (fun s => (pyWords s).length)).sum
      = (pyWords (joinSp segments)).length := by
  rw [pyWords_joinSp, List.length_flatten, List.map_map]
  rfl

/-- C7: `calculate_difficulty` is a deterministic pure function of
`(segments, duration)`: for every non-empty segment list and positive
duration it equals the spec's bucket formula — the words-per-minute bucket
(`<100→0, <130→1, <160→2, else 3`) plus the mean-word-length bucket
(`<4.5→0, <5.5→1, else 2`), with `easy` for a total of at most 1, `medium`
for at most 3, and `hard` otherwise. -/
theorem C7_difficulty (segments : List (List Char)) (duration : ℚ)
    (hne : segments ≠ []) (hd : 0 < duration) :
    calculateDifficulty segments duration = difficultySpec segments duration := by
  have hguard : ¬ (segments = [] ∨ duration ≤ 0) := by
    push_neg
    exact ⟨hne, hd⟩
  simp only [calculateDifficulty, difficultySpec, if_neg hguard]
  rw [total_words_eq_join]

/-- C7 witness: 100 one-word segments (`"word"`, length 4) over 60 seconds
give words-per-minute 100 and mean word length 4.0, hence `easy`. -/
theorem C7_witness :
    (List.replicate 100 "word".data : List (List Char)) ≠ [] ∧
    calculateDifficulty (List.replicate 100 "word".data) 60 = "easy" := by
  have h := C7_difficulty (List.replicate 100 "word".data) 60 (by simp) (by norm_num)
  refine ⟨by simp, h.trans ?_⟩
  have hws : pyWords (joinSp (List.replicate 100 "word".data))
      = List.replicate 100 "word".data := by
    rw [pyWords_joinSp, List.map_replicate,
        pyWords_of_word "word".data (by decide) (by decide),
        flatten_replicate_singleton]
  simp only [difficultySpec, hws, List.map_replicate, List.sum_replicate,
    List.length_replicate]
  norm_num

/-- C4 counterexample: three sentences of 5, 15 and 5 words force-merge into a
20-word buffer and a trailing 5-word buffer; the tail fix-up then merges
backward into a 25-word segment, exceeding the claimed bound
`MAX_WORDS_PER_SEGMENT + 5 = 20`. -/
theorem C4_counterexample :
    splitText "a b c d e. f g h i j k l m n o p q r s t. u v w x y.".data
      = ["a b c d e. f g h i j k l m n o p q r s t. u v w x y.".data] ∧
    ¬ (∀ piece ∈ splitText "a b c d e. f g h i j k l m n o p q r s t. u v w x y.".data,
        wc piece ≤ MAX_WORDS_PER_SEGMENT + 5) := by
  constructor
  · decide
  · decide

/-- C4 amended: in the segmenter's final tail fix-up a last buffer with fewer
than `MIN_WORDS_PER_SEGMENT` words is merged backward into the last emitted
segment whenever one exists, unconditionally — the backward merge is not
bounded by the forward force-merge's overflow tolerance; otherwise the buffer
is emitted as-is. -/
theorem C4_tailfix_unbounded (merged : List (List Char)) (cur : List Char)
    (hcur : cur ≠ []) :
    (∀ _ : wc cur < MIN_WORDS_PER_SEGMENT, ∀ h2 : merged ≠ [],
      tailFix merged cur = merged.dropLast ++ [merged.getLast h2 ++ ' ' :: cur]) ∧
    ((MIN_WORDS_PER_SEGMENT ≤ wc cur ∨ merged = []) →
      tailFix merged cur = merged ++ [cur]) := by
  constructor
  · intro h1 h2
    rw [tailFix, if_neg hcur, dif_pos ⟨h1, h2⟩]
  · intro h
    rw [tailFix, if_neg hcur, dif_neg]
    rcases h with h | h
    · rintro ⟨h1, _⟩
      omega
    · rintro ⟨_, h2⟩
      exact h2 h

/-- C4 witness: a short final buffer merges backward (here into a 6-word
segment), and with no previous segment it is emitted as-is. -/
theorem C4_witness :
    tailFix ["one two three four five six".data] "x".data
      = ["one two three four five six x".data] ∧
    tailFix [] "x".data = ["x".data] := by
  have h1 := (C4_tailfix_unbounded ["one two three four five six".data] "x".data
    (by decide)).1 (by decide) (by simp)
  have h2 := (C4_tailfix_unbounded [] "x".data (by decide)).2 (Or.inr rfl)
  exact ⟨h1.trans (by decide), h2⟩

theorem flatten_singletons {α : Type} (l : List α) :
    (l.map (fun a => [a])).flatten = l := by
  induction l with
  | nil => rfl
  | cons a as ih => simp [ih]

theorem pyWords_joinSp_words (ws : List (List Char))
    (h : ∀ w ∈ ws, w ≠ [] ∧ ∀ c ∈ w, pyIsSpace c = false) :
    pyWords (joinSp ws) = ws := by
  rw [pyWords_joinSp]
  have hmap : ws.map pyWords = ws.map (fun w => [w]) :=
    List.map_congr_left (fun w hw => pyWords_of_word w (h w hw).1 (h w hw).2)
  rw [hmap, flatten_singletons]

theorem wc_chunkAux (ws : List (List Char)) (acc : List (List Char)) (cnt : ℕ)
    (hws : ∀ w ∈ ws, w ≠ [] ∧ ∀ c ∈ w, pyIsSpace c = false)
    (hacc : ∀ w ∈ acc, w ≠ [] ∧ ∀ c ∈ w, pyIsSpace c = false)
    (hlen : acc.length + cnt ≤ MAX_WORDS_PER_SEGMENT) :
    ∀ p ∈ chunkAux ws acc cnt, wc p ≤ MAX_WORDS_PER_SEGMENT := by
  have hMAX : MAX_WORDS_PER_SEGMENT = 15 := rfl
  induction ws generalizing acc cnt with
  | nil =>
    intro p hp
    by_cases ha : acc = []
    · simp [chunkAux, ha] at hp
    · simp only [chunkAux, if_neg ha, List.mem_singleton] at hp
      subst hp
      rw [wc, pyWords_joinSp_words acc.reverse
        (fun w hw => hacc w (List.mem_reverse.mp hw))]
      simp only [List.length_reverse]
      omega
  | cons w ws ih =>
    intro p hp
    cases cnt with
    | zero =>
      simp only [chunkAux] at hp
      rcases List.mem_cons.mp hp with h | h
      · subst h
        rw [wc, pyWords_joinSp_words acc.reverse
          (fun v hv => hacc v (List.mem_reverse.mp hv))]
        simp only [List.length_reverse]
        omega
      · refine ih [w] (MAX_WORDS_PER_SEGMENT - 1)
          (fun v hv => hws v (by simp [hv])) ?_ ?_ p h
        · intro v hv
          rw [List.mem_singleton] at hv
          subst hv
          exact hws v (by simp)
        · simp only [List.length_singleton, hMAX]
          omega
    | succ n =>
      refine ih (w :: acc) n (fun v hv => hws v (by simp [hv])) ?_ ?_ p hp
      · intro v hv
        rcases List.mem_cons.mp hv with h | h
        · subst h
          exact hws v (by simp)
        · exact hacc v h
      · simp only [List.length_cons]
        omega

theorem wc_chunkWords (t : List Char) :
    ∀ p ∈ chunkWords (pyWords t), wc p ≤ MAX_WORDS_PER_SEGMENT :=
  wc_chunkAux (pyWords t) [] MAX_WORDS_PER_SEGMENT
    (pyWords_sound t) (by simp) (by simp)

/-- C3 counterexample: a 16-word comma-free piece containing the conjunction
`because`, where splitting before the conjunction (spec step (b)) would give
two conforming pieces of 8 words each, but `_smart_split` instead hard-chunks
into a 15-word block and a 1-word block — the source has no conjunction
step. -/
theorem C3_counterexample :
    smartSplit "aa bb cc dd ee ff gg hh because jj kk ll mm nn oo pp".data
      = ["aa bb cc dd ee ff gg hh because jj kk ll mm nn oo".data, "pp".data] ∧
    conjSplitSpec "aa bb cc dd ee ff gg hh because jj kk ll mm nn oo pp".data
      = ["aa bb cc dd ee ff gg hh".data, "because jj kk ll mm nn oo pp".data] ∧
    (∀ p ∈ conjSplitSpec "aa bb cc dd ee ff gg hh because jj kk ll mm nn oo pp".data,
      wc p ≤ MAX_WORDS_PER_SEGMENT) ∧
    wc "aa bb cc dd ee ff gg hh because jj kk ll mm nn oo pp".data
      > MAX_WORDS_PER_SEGMENT ∧
    ¬ (',' ∈ "aa bb cc dd ee ff gg hh because jj kk ll mm nn oo pp".data) ∧
    smartSplit "aa bb cc dd ee ff gg hh because jj kk ll mm nn oo pp".data
      ≠ conjSplitSpec "aa bb cc dd ee ff gg hh because jj kk ll mm nn oo pp".data := by
  refine ⟨by decide, by decide, by decide, by decide, by decide, by decide⟩

/-- C3 amended: a piece exceeding `MAX_WORDS_PER_SEGMENT` is subdivided using
only (a) comma-delimited sub-clauses greedily re-merged up to
`MAX_WORDS_PER_SEGMENT`, taken when the text contains a comma and all merged
pieces conform, and otherwise (c) hard chunking into fixed blocks of
`MAX_WORDS_PER_SEGMENT` words; there is no conjunction-based step, and every
piece returned by the subdivision has at most `MAX_WORDS_PER_SEGMENT`
words. -/
theorem C3_smart_split_amended (t : List Char) :
    ((',' ∈ t ∧ (commaMergeSmart t).all (fun p => wc p ≤ MAX_WORDS_PER_SEGMENT)) →
      smartSplit t = commaMergeSmart t) ∧
    (¬ (',' ∈ t ∧ (commaMergeSmart t).all (fun p => wc p ≤ MAX_WORDS_PER_SEGMENT)) →
      smartSplit t = chunkWords (pyWords t)) ∧
    (∀ p ∈ smartSplit t, wc p ≤ MAX_WORDS_PER_SEGMENT) := by
  refine ⟨?_, ?_, ?_⟩
  · rintro ⟨h1, h2⟩
    simp [smartSplit, h1, h2]
  · intro h
    by_cases h1 : ',' ∈ t
    · have h2 : ¬ (commaMergeSmart t).all (fun p => wc p ≤ MAX_WORDS_PER_SEGMENT) :=
        fun hall => h ⟨h1, hall⟩
      simp [smartSplit, h1, h2]
    · simp [smartSplit, h1]
  · intro p hp
    by_cases h1 : ',' ∈ t
    · by_cases h2 : (commaMergeSmart t).all (fun p => wc p ≤ MAX_WORDS_PER_SEGMENT)
      · simp only [smartSplit, if_pos h1, if_pos h2] at hp
        simpa using List.all_eq_true.mp h2 p hp
      · simp only [smartSplit, if_pos h1, if_neg h2] at hp
        exact wc_chunkWords t p hp
    · simp only [smartSplit, if_neg h1] at hp
      exact wc_chunkWords t p hp

/-- C3 witness: a comma-free text goes to the hard-chunk branch and all
resulting pieces conform. -/
theorem C3_witness :
    smartSplit "one two".data = chunkWords (pyWords "one two".data) ∧
    ∀ p ∈ smartSplit "one two".data, wc p ≤ MAX_WORDS_PER_SEGMENT := by
  have h := C3_smart_split_amended "one two".data
  exact ⟨h.2.1 (by decide), h.2.2⟩

theorem not_all_space_of_strip_ne_nil (l : List Char) (h : pyStrip l ≠ []) :
    ¬ (pyStrip l).all pyIsSpace := fun hall => h (pyStrip_all_space l hall)

theorem not_all_append_left {a b : List Char} (h : ¬ a.all pyIsSpace) :
    ¬ (a ++ b).all pyIsSpace := by
  intro hall
  rw [List.all_append] at hall
  exact h (by simpa using (Bool.and_eq_true_iff.mp hall).1)

theorem mergeStep_inv (st : List (List Char) × List Char) (part : List Char)
    (h1 : ∀ p ∈ st.1, ¬ p.all pyIsSpace)
    (h2 : st.2 = [] ∨ ¬ st.2.all pyIsSpace) :
    (∀ p ∈ (mergeStep st part).1, ¬ p.all pyIsSpace) ∧
    ((mergeStep st part).2 = [] ∨ ¬ (mergeStep st part).2.all pyIsSpace) := by
  obtain ⟨merged, cur⟩ := st
  simp only at h1 h2
  unfold mergeStep
  by_cases hp : pyStrip part = []
  · simp only [if_pos hp]
    exact ⟨h1, h2⟩
  · have hgood : ¬ (pyStrip part).all pyIsSpace := not_all_space_of_strip_ne_nil part hp
    simp only [if_neg hp]
    by_cases hcur : cur = []
    · simp only [if_pos hcur]
      exact ⟨h1, Or.inr hgood⟩
    · have hcg : ¬ cur.all pyIsSpace := h2.resolve_left hcur
      have hflush : ∀ p ∈ merged ++ [cur], ¬ p.all pyIsSpace := by
        intro p hp'
        rcases List.mem_append.mp hp' with h | h
        · exact h1 p h
        · rw [List.mem_singleton] at h
          subst h
          exact hcg
      simp only [if_neg hcur]
      split
      · exact ⟨h1, Or.inr (not_all_append_left hcg)⟩
      · split
        · exact ⟨hflush, Or.inr hgood⟩
        · split
          · exact ⟨h1, Or.inr (not_all_append_left hcg)⟩
          · exact ⟨hflush, Or.inr hgood⟩

theorem foldl_mergeStep_inv (parts : List (List Char))
    (st : List (List Char) × List Char)
    (h1 : ∀ p ∈ st.1, ¬ p.all pyIsSpace)
    (h2 : st.2 = [] ∨ ¬ st.2.all pyIsSpace) :
    (∀ p ∈ (parts.foldl mergeStep st).1, ¬ p.all pyIsSpace) ∧
    ((parts.foldl mergeStep st).2 = [] ∨ ¬ (parts.foldl mergeStep st).2.all pyIsSpace) := by
  induction parts generalizing st with
  | nil => exact ⟨h1, h2⟩
  | cons q qs ih =>
    rw [List.foldl_cons]
    have h := mergeStep_inv st q h1 h2
    exact ih (mergeStep st q) h.1 h.2

theorem tailFix_inv (merged : List (List Char)) (cur : List Char)
    (h1 : ∀ p ∈ merged, ¬ p.all pyIsSpace)
    (h2 : cur = [] ∨ ¬ cur.all pyIsSpace) :
    ∀ p ∈ tailFix merged cur, ¬ p.all pyIsSpace := by
  unfold tailFix
  by_cases hc : cur = []
  · simpa [hc] using h1
  · have hcg : ¬ cur.all pyIsSpace := h2.resolve_left hc
    rw [if_neg hc]
    by_cases hd : wc cur < MIN_WORDS_PER_SEGMENT ∧ merged ≠ []
    · rw [dif_pos hd]
      intro p hp
      rcases List.mem_append.mp hp with h | h
      · exact h1 p ((List.dropLast_sublist merged).subset h)
      · rw [List.mem_singleton] at h
        subst h
        exact not_all_append_left (h1 _ (merged.getLast_mem hd.2))
    · rw [dif_neg hd]
      intro p hp
      rcases List.mem_append.mp hp with h | h
      · exact h1 p h
      · rw [List.mem_singleton] at h
        subst h
        exact hcg

/-- C2 counterexample: on the empty input `_split_text` returns `[""]`, whose
only piece is empty after trimming, refuting "every returned string is
non-empty after trimming" for every input. -/
theorem C2_counterexample :
    splitText "".data = [[]] ∧
    ¬ (∀ piece ∈ splitText "".data, pyStrip piece ≠ []) := by
  constructor
  · decide
  · decide

/-- C2 amended: `_split_text` always returns a non-empty sequence (worst case
`[text]`), and whenever the input is non-empty after trimming, every returned
string is non-empty after trimming. -/
theorem C2_split_text_amended (t : List Char) :
    splitText t ≠ [] ∧
    (pyStrip t ≠ [] → ∀ piece ∈ splitText t, pyStrip piece ≠ []) := by
  simp only [splitText]
  set parts0 := ((sentSplit t).map pyStrip).filter (fun p => p ≠ []) with hparts0
  set parts := if parts0 = [] then [t] else parts0 with hparts
  set result := (parts.map (fun p =>
    if wc p ≤ MAX_WORDS_PER_SEGMENT then [p] else smartSplit p)).flatten with hresult
  set st := result.foldl mergeStep ([], []) with hst
  have hinv := foldl_mergeStep_inv result ([], []) (by simp) (Or.inl rfl)
  have htail := tailFix_inv st.1 st.2 hinv.1 hinv.2
  by_cases hm : tailFix st.1 st.2 = []
  · rw [if_pos hm]
    refine ⟨by simp, ?_⟩
    intro ht piece hpiece
    rw [List.mem_singleton] at hpiece
    subst hpiece
    exact ht
  · rw [if_neg hm]
    refine ⟨hm, ?_⟩
    intro _ piece hpiece
    intro heq
    exact htail piece hpiece ((pyStrip_eq_nil_iff piece).mp heq)

/-- C2 witness: a concrete input with non-blank text yields non-blank
pieces. -/
theorem C2_witness :
    splitText "Hello world.".data ≠ [] ∧
    ∀ piece ∈ splitText "Hello world.".data, pyStrip piece ≠ [] := by
  have h := C2_split_text_amended "Hello world.".data
  exact ⟨h.1, h.2 (by decide)⟩

/-- C9: the noise filter returns true on `""` and `"[Music]"` and false on
`"Hello, how are you today?"`; it returns true for every empty or
whitespace-only string, and true whenever the text has at least 4 words and
all of them are identical. -/
theorem C9_noise_filter :
    isNonSpeech "".data = true ∧
    isNonSpeech "[Music]".data = true ∧
    isNonSpeech "Hello, how are you today?".data = false ∧
    (∀ t : List Char, t.all pyIsSpace → isNonSpeech t = true) ∧
    (∀ (t w : List Char) (ws : List (List Char)),
      pyWords t = w :: ws → 3 ≤ ws.length → (∀ v ∈ ws, v = w) →
      isNonSpeech t = true) := by
  refine ⟨by decide, by decide, by decide, ?_, ?_⟩
  · intro t h
    have hstrip : pyStrip t = [] := (pyStrip_eq_nil_iff t).mpr h
    simp [isNonSpeech, hstrip]
  · intro t w ws hw hlen hall
    by_cases hstrip : pyStrip t = []
    · simp [isNonSpeech, hstrip]
    · have ht : t ≠ [] := by
        intro h0
        subst h0
        exact hstrip rfl
      have hwords : pyWords (pyStrip (t.map lowerChar))
          = w.map lowerChar :: ws.map (List.map lowerChar) := by
        rw [pyWords_strip, pyWords_map_lower, hw, List.map_cons]
      have hD : (decide (3 ≤ (pyWords (pyStrip (t.map lowerChar))).length) &&
            allEqualHead (pyWords (pyStrip (t.map lowerChar))) &&
            decide (4 ≤ (pyWords (pyStrip (t.map lowerChar))).length)) = true := by
        rw [hwords]
        have h1 : allEqualHead (w.map lowerChar :: ws.map (List.map lowerChar))
            = true := by
          simp only [allEqualHead, List.all_eq_true]
          intro v hv
          obtain ⟨v0, hv0, rfl⟩ := List.mem_map.mp hv
          simp [hall v0 hv0]
        simp only [h1, List.length_cons, List.length_map]
        simp only [Bool.and_true, Bool.true_and, Bool.and_eq_true, decide_eq_true_eq]
        omega
      simp only [isNonSpeech]
      rw [if_neg (by simp [ht, hstrip])]
      simp only [hD, Bool.or_true, Bool.true_or, Bool.and_true]

/-- C9 witness: a whitespace-only string and a four-fold repeated word are
both classified as non-speech. -/
theorem C9_witness :
    isNonSpeech "   ".data = true ∧ isNonSpeech "la la la la".data = true := by
  have h := C9_noise_filter
  refine ⟨h.2.2.2.1 "   ".data (by decide), ?_⟩
  exact h.2.2.2.2 "la la la la".data "la".data ["la".data, "la".data, "la".data]
    (by decide) (by decide) (by decide)

end PodTranscode
